import Mathlib

/-!
Verification of the pass-extraction loop of `satellite_pass_tracker.py`
(`SatellitePassCalculator.calculate_passes`, lines 94-116).

The loop consumes the time-ascending event stream produced by the orbit
sampler (`satellite.find_events`), where each event is a pair of a time and
an integer kind (0 = rise, 1 = culmination, 2 = set), and accumulates
completed `SatellitePass` records.  Times and elevations are modelled as
rationals; the sampler's elevation computation at an instant
(`topocentric.altaz()` at line 104-105) is modelled as an arbitrary function
`elev : ℚ → ℚ` supplied as a parameter.

The Python dict `current_pass` is modelled as a record of optional fields
(a key is "present" when the field is `some`).  The dataclass construction
`SatellitePass(**current_pass)` at line 113 can in principle fail when the
dict's keys do not match the dataclass fields, so it is modelled as a
fallible `mkSatellitePass : CurrentPass → Except String SatellitePass`, and
the whole loop runs in `Except String`; totality of the extractor is then a
theorem rather than an artifact of the embedding.
-/

namespace PassTracker

/-- An event from the orbit sampler: a time paired with the integer event
kind used by the source (0 = rise, 1 = culmination, 2 = set). -/
abbrev SatEvent : Type := ℚ × ℕ

/-- The `SatellitePass` dataclass (source lines 22-29). -/
structure SatellitePass where
  rise_time : ℚ
  culmination_time : ℚ
  set_time : ℚ
  max_elevation : ℚ
  satellite_name : String
deriving DecidableEq, Repr

/-- The `current_pass` dict (source line 95): each dataclass field is either
present (`some`) or absent (`none`). -/
structure CurrentPass where
  rise_time : Option ℚ
  culmination_time : Option ℚ
  max_elevation : Option ℚ
  set_time : Option ℚ
  satellite_name : Option String
deriving DecidableEq, Repr

/-- The empty dict `{}` (source lines 95 and 114). -/
def CurrentPass.empty : CurrentPass := ⟨none, none, none, none, none⟩

/-- The dataclass construction `SatellitePass(**current_pass)` (source line
113): succeeds exactly when every dataclass field is present in the dict,
and raises (`TypeError`) otherwise. -/
def mkSatellitePass (d : CurrentPass) : Except String SatellitePass :=
  match d.rise_time, d.culmination_time, d.set_time, d.max_elevation,
      d.satellite_name with
  | some r, some c, some s, some m, some n => .ok ⟨r, c, s, m, n⟩
  | _, _, _, _, _ => .error "TypeError: SatellitePass fields do not match"

/-- The loop state: the `passes` accumulator and the `current_pass` dict. -/
abbrev ExtractState : Type := List SatellitePass × CurrentPass

/-- One iteration of the event loop (source lines 97-114):
rise (`event == 0`) replaces the whole dict with one holding only
`rise_time`; culmination (`event == 1`) records `culmination_time` and
`max_elevation` when a rise is pending; set (`event == 2`) completes and
appends a pass when both rise and culmination are recorded, then resets the
dict; any other kind, and a culmination or set whose guard fails, leaves the
state unchanged. -/
def processEvent (satellite_name : String) (elev : ℚ → ℚ)
    (st : ExtractState) (ev : SatEvent) : Except String ExtractState :=
  let passes := st.1
  let current_pass := st.2
  let dt := ev.1
  if ev.2 = 0 then
    .ok (passes, { CurrentPass.empty with rise_time := some dt })
  else if ev.2 = 1 then
    if current_pass.rise_time.isSome then
      .ok (passes, { current_pass with
        culmination_time := some dt, max_elevation := some (elev dt) })
    else
      .ok (passes, current_pass)
  else if ev.2 = 2 then
    if current_pass.rise_time.isSome && current_pass.culmination_time.isSome
    then
      match mkSatellitePass { current_pass with
          set_time := some dt, satellite_name := some satellite_name } with
      | .ok p => .ok (passes ++ [p], CurrentPass.empty)
      | .error e => .error e
    else
      .ok (passes, current_pass)
  else
    .ok (passes, current_pass)

/-- The event loop `for ti, event in zip(t, events)` (source lines 97-114),
threading the state through `processEvent`. -/
def runEvents (satellite_name : String) (elev : ℚ → ℚ) :
    List SatEvent → ExtractState → Except String ExtractState
  | [], st => .ok st
  | ev :: evs, st =>
    match processEvent satellite_name elev st ev with
    | .ok st' => runEvents satellite_name elev evs st'
    | .error e => .error e

/-- The pass-extraction core of `calculate_passes` (source lines 94-116):
run the loop from an empty accumulator and an empty dict and return the
accumulated passes. -/
def calculate_passes (satellite_name : String) (elev : ℚ → ℚ)
    (events : List SatEvent) : Except String (List SatellitePass) :=
  match runEvents satellite_name elev events ([], CurrentPass.empty) with
  | .ok st => .ok st.1
  | .error e => .error e

/-- A well-formed rise, culmination, set triple of times, expanded into the
three events the sampler would emit for it. -/
def tripleEvents (tr : ℚ × ℚ × ℚ) : List SatEvent :=
  [(tr.1, 0), (tr.2.1, 1), (tr.2.2, 2)]

/-- Event stream consisting of a sequence of well-formed triples. -/
def triplesToEvents (l : List (ℚ × ℚ × ℚ)) : List SatEvent :=
  (l.map tripleEvents).flatten

/-- The pass a well-formed triple should produce. -/
def passOfTriple (satellite_name : String) (elev : ℚ → ℚ)
    (tr : ℚ × ℚ × ℚ) : SatellitePass :=
  ⟨tr.1, tr.2.1, tr.2.2, elev tr.2.1, satellite_name⟩

/-! ### Unfolding lemmas for the loop body -/

/-- A rise event replaces the whole dict with one holding only `rise_time`
(source line 101), whatever the previous state was. -/
theorem processEvent_rise (sn : String) (elev : ℚ → ℚ)
    (ps : List SatellitePass) (cp : CurrentPass) (t : ℚ) :
    processEvent sn elev (ps, cp) (t, 0) =
      .ok (ps, ⟨some t, none, none, none, none⟩) := rfl

/-- A culmination event with a pending rise records the culmination time and
the sampler's elevation at that instant (source lines 103-107). -/
theorem processEvent_culm (sn : String) (elev : ℚ → ℚ)
    (ps : List SatellitePass) (cp : CurrentPass) (t r : ℚ)
    (h : cp.rise_time = some r) :
    processEvent sn elev (ps, cp) (t, 1) =
      .ok (ps, { cp with culmination_time := some t,
                         max_elevation := some (elev t) }) := by
  simp [processEvent, h]

/-- A culmination event with no pending rise is discarded (source line 103
guard fails). -/
theorem processEvent_culm_idle (sn : String) (elev : ℚ → ℚ)
    (ps : List SatellitePass) (cp : CurrentPass) (t : ℚ)
    (h : cp.rise_time = none) :
    processEvent sn elev (ps, cp) (t, 1) = .ok (ps, cp) := by
  simp [processEvent, h]

/-- A set event with both a rise and a culmination recorded emits a
completed pass and resets the dict (source lines 109-114). -/
theorem processEvent_set_emit (sn : String) (elev : ℚ → ℚ)
    (ps : List SatellitePass) (cp : CurrentPass) (t r c m : ℚ)
    (h1 : cp.rise_time = some r) (h2 : cp.culmination_time = some c)
    (h3 : cp.max_elevation = some m) :
    processEvent sn elev (ps, cp) (t, 2) =
      .ok (ps ++ [⟨r, c, t, m, sn⟩], CurrentPass.empty) := by
  obtain ⟨r0, c0, m0, s0, n0⟩ := cp
  simp only [CurrentPass.mk.injEq] at h1 h2 h3
  subst h1; subst h2; subst h3
  simp [processEvent, mkSatellitePass]

/-- A set event while rise or culmination is missing leaves the whole state
unchanged: no pass is emitted and the dict is kept as it is (source lines
108-114: the `elif` body is guarded and there is no else branch). -/
theorem processEvent_set_skip (sn : String) (elev : ℚ → ℚ)
    (ps : List SatellitePass) (cp : CurrentPass) (t : ℚ)
    (h : cp.rise_time = none ∨ cp.culmination_time = none) :
    processEvent sn elev (ps, cp) (t, 2) = .ok (ps, cp) := by
  rcases h with h | h <;> simp [processEvent, h]

/-- An event of any kind other than 0, 1, 2 is ignored (no branch of the
`if`/`elif` chain applies). -/
theorem processEvent_other (sn : String) (elev : ℚ → ℚ)
    (ps : List SatellitePass) (cp : CurrentPass) (t : ℚ) (k : ℕ)
    (h0 : k ≠ 0) (h1 : k ≠ 1) (h2 : k ≠ 2) :
    processEvent sn elev (ps, cp) (t, k) = .ok (ps, cp) := by
  simp [processEvent, h0, h1, h2]

/-- Running the loop over a concatenation: once the first half has run
successfully, the second half continues from its final state. -/
theorem runEvents_append (sn : String) (elev : ℚ → ℚ)
    (evs1 evs2 : List SatEvent) (st st' : ExtractState)
    (h : runEvents sn elev evs1 st = .ok st') :
    runEvents sn elev (evs1 ++ evs2) st = runEvents sn elev evs2 st' := by
  induction evs1 generalizing st with
  | nil =>
    simp only [runEvents] at h
    cases h
    simp
  | cons ev evs ih =>
    simp only [List.cons_append, runEvents] at h ⊢
    cases hp : processEvent sn elev st ev with
    | ok st1 => rw [hp] at h; exact ih st1 h
    | error e => rw [hp] at h; cases h

/-- Running the loop over one well-formed triple starting from an empty dict
appends exactly the corresponding pass and ends with an empty dict. -/
theorem runEvents_triple (sn : String) (elev : ℚ → ℚ) (tr : ℚ × ℚ × ℚ)
    (rest : List SatEvent) (ps : List SatellitePass) :
    runEvents sn elev (tripleEvents tr ++ rest) (ps, CurrentPass.empty) =
      runEvents sn elev rest
        (ps ++ [passOfTriple sn elev tr], CurrentPass.empty) := rfl

/-- Running the loop over a sequence of well-formed triples from an empty
dict appends exactly one pass per triple, in order. -/
theorem runEvents_triples (sn : String) (elev : ℚ → ℚ)
    (l : List (ℚ × ℚ × ℚ)) (ps : List SatellitePass) :
    runEvents sn elev (triplesToEvents l) (ps, CurrentPass.empty) =
      .ok (ps ++ l.map (passOfTriple sn elev), CurrentPass.empty) := by
  induction l generalizing ps with
  | nil => simp [triplesToEvents, runEvents]
  | cons tr l ih =>
    have hsplit : triplesToEvents (tr :: l) =
        tripleEvents tr ++ triplesToEvents l := by
      simp [triplesToEvents]
    rw [hsplit, runEvents_triple, ih]
    simp

/-- C1: for every strictly time-ascending event sequence consisting of
well-formed rise, culmination, set triples, `calculate_passes` returns
exactly one pass per triple, in input order, whose three times are the
triple's event times and whose `max_elevation` is the sampler's elevation
at the culmination instant. -/
theorem C1_wellformed_triples (sn : String) (elev : ℚ → ℚ)
    (l : List (ℚ × ℚ × ℚ))
    (hasc : ((triplesToEvents l).map Prod.fst).Pairwise (· < ·)) :
    calculate_passes sn elev (triplesToEvents l) =
      .ok (l.map (passOfTriple sn elev)) := by
  rw [calculate_passes, runEvents_triples]
  simp

/-- C1 witness: the concrete scenario rise at 0, culmination at 1 with
sampler elevation 45.2, set at 2 yields exactly that one pass. -/
theorem C1_wellformed_triples_witness :
    calculate_passes "ISS" (fun _ => (45.2 : ℚ))
        (triplesToEvents [(0, 1, 2)]) =
      .ok [⟨0, 1, 2, 45.2, "ISS"⟩] :=
  C1_wellformed_triples "ISS" (fun _ => (45.2 : ℚ)) [(0, 1, 2)] (by decide)

/-! ### Totality -/

/-- The one way the loop body could fail is the dataclass construction at a
set event; it cannot, because `culmination_time` and `max_elevation` are
only ever written together.  `NoMissingField` is that invariant. -/
def NoMissingField (cp : CurrentPass) : Prop :=
  cp.culmination_time.isSome → cp.max_elevation.isSome

/-- Every loop iteration succeeds and preserves `NoMissingField`. -/
theorem processEvent_total (sn : String) (elev : ℚ → ℚ)
    (st : ExtractState) (ev : SatEvent) (h : NoMissingField st.2) :
    ∃ st', processEvent sn elev st ev = .ok st' ∧ NoMissingField st'.2 := by
  obtain ⟨ps, cp⟩ := st
  obtain ⟨t, k⟩ := ev
  by_cases h0 : k = 0
  · subst h0
    exact ⟨_, processEvent_rise sn elev ps cp t, by simp [NoMissingField]⟩
  by_cases h1 : k = 1
  · subst h1
    cases hr : cp.rise_time with
    | none => exact ⟨_, processEvent_culm_idle sn elev ps cp t hr, h⟩
    | some r =>
      exact ⟨_, processEvent_culm sn elev ps cp t r hr,
        by simp [NoMissingField]⟩
  by_cases h2 : k = 2
  · subst h2
    cases hr : cp.rise_time with
    | none => exact ⟨_, processEvent_set_skip sn elev ps cp t (Or.inl hr), h⟩
    | some r =>
      cases hc : cp.culmination_time with
      | none =>
        exact ⟨_, processEvent_set_skip sn elev ps cp t (Or.inr hc), h⟩
      | some c =>
        have hm : cp.max_elevation.isSome := h (by simp [hc])
        obtain ⟨m, hm⟩ := Option.isSome_iff_exists.mp hm
        exact ⟨_, processEvent_set_emit sn elev ps cp t r c m hr hc hm,
          by simp [NoMissingField, CurrentPass.empty]⟩
  · exact ⟨_, processEvent_other sn elev ps cp t k h0 h1 h2, h⟩

/-- The whole loop succeeds from any state satisfying the invariant. -/
theorem runEvents_total (sn : String) (elev : ℚ → ℚ)
    (evs : List SatEvent) (st : ExtractState) (h : NoMissingField st.2) :
    ∃ st', runEvents sn elev evs st = .ok st' ∧ NoMissingField st'.2 := by
  induction evs generalizing st with
  | nil => exact ⟨st, rfl, h⟩
  | cons ev evs ih =>
    obtain ⟨st1, hstep, h1⟩ := processEvent_total sn elev st ev h
    obtain ⟨st2, hrun, h2⟩ := ih st1 h1
    refine ⟨st2, ?_, h2⟩
    simp only [runEvents]
    rw [hstep]
    exact hrun

/-- C5: the pass extractor is total and never raises.  For every event
sequence, including malformed or out-of-order ones, `calculate_passes`
returns a (possibly empty) list of passes rather than failing. -/
theorem C5_extractor_total (sn : String) (elev : ℚ → ℚ)
    (events : List SatEvent) :
    ∃ l, calculate_passes sn elev events = .ok l := by
  obtain ⟨st, hrun, _⟩ := runEvents_total sn elev events
    ([], CurrentPass.empty) (by simp [NoMissingField, CurrentPass.empty])
  exact ⟨st.1, by rw [calculate_passes, hrun]⟩

/-- C9: pass extraction is deterministic; two invocations on the same input
event sequence with the same elevation function produce identical output. -/
theorem C9_deterministic (sn : String) (elev : ℚ → ℚ)
    (evs1 evs2 : List SatEvent) (h : evs1 = evs2) :
    calculate_passes sn elev evs1 = calculate_passes sn elev evs2 := by
  rw [h]

/-- C9 witness: determinism at a concrete input sequence. -/
theorem C9_deterministic_witness :
    calculate_passes "ISS" (fun _ => (10 : ℚ)) [(0, 0), (1, 1), (2, 2)] =
      calculate_passes "ISS" (fun _ => (10 : ℚ)) [(0, 0), (1, 1), (2, 2)] :=
  C9_deterministic "ISS" (fun _ => (10 : ℚ)) _ _ rfl

/-! ### Behaviour on a set event without a recorded culmination (C2) -/

/-- C2 counterexample: after a rise at time 0 and a set at time 1 with no
culmination in between, the extractor does not return to the idle state:
the dict still holds `rise_time = 0`.  Feeding a later culmination and set
then emits a pass whose `rise_time` is 0, recorded before that set at time
1 — contradicting the claim that the pending rise is forgotten. -/
theorem C2_counterexample :
    runEvents "ISS" (fun t => t) [(0, 0), (1, 2)] ([], CurrentPass.empty) =
      .ok ([], ⟨some 0, none, none, none, none⟩) ∧
    calculate_passes "ISS" (fun t => t) [(0, 0), (1, 2), (2, 1), (3, 2)] =
      .ok [⟨0, 2, 3, 2, "ISS"⟩] ∧
    (0 : ℚ) < 1 :=
  ⟨rfl, rfl, by decide⟩

/-- C2 amended: on a set event while a rise is pending but no culmination
is recorded, the extractor emits nothing and leaves the dict unchanged; the
pending rise is retained, and a later culmination followed by a set
completes a pass whose `rise_time` is that earlier rise. -/
theorem C2_amended_set_keeps_rise (sn : String) (elev : ℚ → ℚ)
    (ps : List SatellitePass) (cp : CurrentPass) (t t2 t3 r : ℚ)
    (h1 : cp.rise_time = some r) (h2 : cp.culmination_time = none) :
    processEvent sn elev (ps, cp) (t, 2) = .ok (ps, cp) ∧
    runEvents sn elev [(t2, 1), (t3, 2)] (ps, cp) =
      .ok (ps ++ [⟨r, t2, t3, elev t2, sn⟩], CurrentPass.empty) := by
  constructor
  · exact processEvent_set_skip sn elev ps cp t (Or.inr h2)
  · obtain ⟨r0, c0, m0, s0, n0⟩ := cp
    simp only [CurrentPass.mk.injEq] at h1 h2
    subst h1; subst h2
    rfl

/-- C2 amended witness: the retained rise at time 0 survives the bare set
at time 1 and heads the pass completed by the later culmination and set. -/
theorem C2_amended_set_keeps_rise_witness :
    processEvent "ISS" (fun t => t)
        ([], ⟨some 0, none, none, none, none⟩) (1, 2) =
      .ok ([], ⟨some 0, none, none, none, none⟩) ∧
    runEvents "ISS" (fun t => t) [(2, 1), (3, 2)]
        ([], ⟨some 0, none, none, none, none⟩) =
      .ok ([⟨0, 2, 3, 2, "ISS"⟩], CurrentPass.empty) :=
  C2_amended_set_keeps_rise "ISS" (fun t => t) []
    ⟨some 0, none, none, none, none⟩ 1 2 3 0 rfl rfl

/-! ### Truncated streams, duplicate rises, leading events -/

/-- C6: a stream that ends while a pass is partially built drops that
partial pass silently.  Appending a trailing unmatched rise, or a trailing
rise plus culmination, to any successfully processed stream leaves the
output unchanged, and the concrete truncated stream rise at `t0`,
culmination at `t1` yields the empty output. -/
theorem C6_partial_pass_dropped (sn : String) (elev : ℚ → ℚ)
    (events : List SatEvent) (l : List SatellitePass) (tr tc t0 t1 : ℚ)
    (h : calculate_passes sn elev events = .ok l) :
    calculate_passes sn elev (events ++ [(tr, 0)]) = .ok l ∧
    calculate_passes sn elev (events ++ [(tr, 0), (tc, 1)]) = .ok l ∧
    calculate_passes sn elev [(t0, 0), (t1, 1)] =
      .ok ([] : List SatellitePass) := by
  cases hrun : runEvents sn elev events ([], CurrentPass.empty) with
  | error e => rw [calculate_passes, hrun] at h; cases h
  | ok st =>
    rw [calculate_passes, hrun, Except.ok.injEq] at h
    obtain ⟨ps, cp⟩ := st
    refine ⟨?_, ?_, rfl⟩
    · rw [calculate_passes,
        runEvents_append sn elev events [(tr, 0)] _ _ hrun]
      exact congrArg Except.ok h
    · rw [calculate_passes,
        runEvents_append sn elev events [(tr, 0), (tc, 1)] _ _ hrun]
      exact congrArg Except.ok h

/-- C6 witness: both trailing-partial forms at concrete inputs yield no
pass, and the truncated rise-culmination stream yields the empty list. -/
theorem C6_partial_pass_dropped_witness :
    calculate_passes "ISS" (fun _ => (20 : ℚ)) [(5, 0)] = .ok [] ∧
    calculate_passes "ISS" (fun _ => (20 : ℚ)) [(5, 0), (6, 1)] = .ok [] ∧
    calculate_passes "ISS" (fun _ => (20 : ℚ)) [(0, 0), (1, 1)] =
      .ok ([] : List SatellitePass) :=
  C6_partial_pass_dropped "ISS" (fun _ => (20 : ℚ)) [] [] 5 6 0 1 rfl

/-- C7: a second rise before any culmination discards the first pending
rise (the whole dict is replaced), and the later pass uses the second
rise's time: the stream rise `t0`, rise `t1`, culmination `t2`, set `t3`
yields exactly one pass with `rise_time = t1`. -/
theorem C7_second_rise_wins (sn : String) (elev : ℚ → ℚ)
    (ps : List SatellitePass) (cp : CurrentPass) (t0 t1 t2 t3 : ℚ)
    (h01 : t0 < t1) (h12 : t1 < t2) (h23 : t2 < t3) :
    processEvent sn elev (ps, cp) (t1, 0) =
      .ok (ps, ⟨some t1, none, none, none, none⟩) ∧
    calculate_passes sn elev [(t0, 0), (t1, 0), (t2, 1), (t3, 2)] =
      .ok [⟨t1, t2, t3, elev t2, sn⟩] :=
  ⟨rfl, rfl⟩

/-- C7 witness: the double-rise stream at times 0, 1, 2, 3 with sampler
elevation 30 yields exactly the pass rising at time 1. -/
theorem C7_second_rise_wins_witness :
    processEvent "ISS" (fun _ => (30 : ℚ)) ([], CurrentPass.empty) (1, 0) =
      .ok ([], ⟨some 1, none, none, none, none⟩) ∧
    calculate_passes "ISS" (fun _ => (30 : ℚ))
        [(0, 0), (1, 0), (2, 1), (3, 2)] =
      .ok [⟨1, 2, 3, 30, "ISS"⟩] :=
  C7_second_rise_wins "ISS" (fun _ => (30 : ℚ)) [] CurrentPass.empty
    0 1 2 3 (by decide) (by decide) (by decide)

/-- Leading culmination and set events leave the initial state untouched. -/
theorem runEvents_leading_discard (sn : String) (elev : ℚ → ℚ) :
    ∀ pre : List SatEvent, (∀ ev ∈ pre, ev.2 = 1 ∨ ev.2 = 2) →
      runEvents sn elev pre ([], CurrentPass.empty) =
        .ok ([], CurrentPass.empty)
  | [], _ => rfl
  | (t, k) :: evs, hpre => by
    have hk := hpre (t, k) (List.mem_cons_self _ _)
    have hrest : ∀ ev ∈ evs, ev.2 = 1 ∨ ev.2 = 2 := fun ev hev =>
      hpre ev (List.mem_cons_of_mem _ hev)
    simp only [runEvents]
    rcases hk with hk | hk <;> simp only at hk <;> subst hk
    · rw [processEvent_culm_idle sn elev _ _ _ rfl]
      exact runEvents_leading_discard sn elev evs hrest
    · rw [processEvent_set_skip sn elev _ _ _ (Or.inl rfl)]
      exact runEvents_leading_discard sn elev evs hrest

/-- C8: a stream beginning with any run of culmination or set events
before the first rise produces the same output as the stream starting at
its first rise: the leading events are discarded and contribute to no
pass. -/
theorem C8_leading_events_discarded (sn : String) (elev : ℚ → ℚ)
    (pre events : List SatEvent)
    (hpre : ∀ ev ∈ pre, ev.2 = 1 ∨ ev.2 = 2) :
    calculate_passes sn elev (pre ++ events) =
      calculate_passes sn elev events := by
  rw [calculate_passes, runEvents_append sn elev pre events _ _
    (runEvents_leading_discard sn elev pre hpre), calculate_passes]

/-- C8 witness: a leading culmination and set before the first rise do not
change the extracted passes. -/
theorem C8_leading_events_discarded_witness :
    calculate_passes "ISS" (fun _ => (15 : ℚ))
        ([(0, 1), (1, 2)] ++ [(2, 0), (3, 1), (4, 2)]) =
      calculate_passes "ISS" (fun _ => (15 : ℚ)) [(2, 0), (3, 1), (4, 2)] :=
  C8_leading_events_discarded "ISS" (fun _ => (15 : ℚ))
    [(0, 1), (1, 2)] [(2, 0), (3, 1), (4, 2)] (by decide)

/-- C10: a second culmination while rise and culmination are already
recorded overwrites both the recorded culmination time and the recorded
maximum elevation, so the stream rise `t0`, culmination `t1`, culmination
`t2`, set `t3` emits a pass carrying the last culmination `t2` and the
sampler's elevation there. -/
theorem C10_second_culmination_overwrites (sn : String) (elev : ℚ → ℚ)
    (ps : List SatellitePass) (cp : CurrentPass) (t r c : ℚ)
    (h1 : cp.rise_time = some r) (h2 : cp.culmination_time = some c) :
    processEvent sn elev (ps, cp) (t, 1) =
      .ok (ps, { cp with culmination_time := some t,
                         max_elevation := some (elev t) }) ∧
    ∀ t0 t1 t2 t3 : ℚ,
      calculate_passes sn elev [(t0, 0), (t1, 1), (t2, 1), (t3, 2)] =
        .ok [⟨t0, t2, t3, elev t2, sn⟩] :=
  ⟨processEvent_culm sn elev ps cp t r h1, fun _ _ _ _ => rfl⟩

/-- C10 witness: with culmination events at times 1 and 2, the emitted pass
records culmination time 2 and the elevation sampled there. -/
theorem C10_second_culmination_overwrites_witness :
    processEvent "ISS" (fun t => t)
        ([], ⟨some 0, some 1, some 1, none, none⟩) (2, 1) =
      .ok ([], ⟨some 0, some 2, some 2, none, none⟩) ∧
    calculate_passes "ISS" (fun t => t) [(0, 0), (1, 1), (2, 1), (3, 2)] =
      .ok [⟨0, 2, 3, 2, "ISS"⟩] :=
  ⟨(C10_second_culmination_overwrites "ISS" (fun t => t) []
      ⟨some 0, some 1, some 1, none, none⟩ 2 0 1 rfl rfl).1,
   (C10_second_culmination_overwrites "ISS" (fun t => t) []
      ⟨some 0, some 1, some 1, none, none⟩ 2 0 1 rfl rfl).2 0 1 2 3⟩

/-! ### Ordering invariants (C3) -/

/-- Invariant of the loop state with respect to the remaining events `evs`
of a strictly time-ascending stream: the emitted passes are internally
ordered, pairwise separated, and entirely in the past of every remaining
event, and the times held in the dict were recorded at past events. -/
structure OrderInv (evs : List SatEvent) (st : ExtractState) : Prop where
  good : ∀ p ∈ st.1,
    p.rise_time < p.culmination_time ∧ p.culmination_time < p.set_time
  sep : st.1.Pairwise (fun p q => p.set_time < q.rise_time)
  fut : ∀ p ∈ st.1, ∀ e ∈ evs, p.set_time < e.1
  riseRec : ∀ r, st.2.rise_time = some r →
    (∀ p ∈ st.1, p.set_time < r) ∧ ∀ e ∈ evs, r < e.1
  culmRec : ∀ c, st.2.culmination_time = some c →
    (∃ r, st.2.rise_time = some r ∧ r < c) ∧ ∀ e ∈ evs, c < e.1

/-- Dropping the head of the remaining events preserves the invariant when
the state is unchanged. -/
theorem OrderInv.tail {ev : SatEvent} {evs : List SatEvent}
    {st : ExtractState} (h : OrderInv (ev :: evs) st) : OrderInv evs st :=
  ⟨h.good, h.sep,
   fun p hp e he => h.fut p hp e (List.mem_cons_of_mem _ he),
   fun r hr => ⟨(h.riseRec r hr).1,
     fun e he => (h.riseRec r hr).2 e (List.mem_cons_of_mem _ he)⟩,
   fun c hc => ⟨(h.culmRec c hc).1,
     fun e he => (h.culmRec c hc).2 e (List.mem_cons_of_mem _ he)⟩⟩

/-- One successful loop iteration preserves the ordering invariant, given
that the current event precedes every remaining one. -/
theorem OrderInv.step (sn : String) (elev : ℚ → ℚ) (ev : SatEvent)
    (evs : List SatEvent) (st st' : ExtractState)
    (hfut : ∀ e ∈ evs, ev.1 < e.1) (hinv : OrderInv (ev :: evs) st)
    (hstep : processEvent sn elev st ev = .ok st') : OrderInv evs st' := by
  obtain ⟨ps, cp⟩ := st
  obtain ⟨t, k⟩ := ev
  obtain ⟨r0, c0, m0, s0, n0⟩ := cp
  by_cases h0 : k = 0
  · subst h0
    rw [processEvent_rise, Except.ok.injEq] at hstep
    subst hstep
    refine ⟨hinv.tail.good, hinv.tail.sep, hinv.tail.fut, ?_, ?_⟩
    · intro r hr
      obtain rfl : t = r := Option.some.inj hr
      exact ⟨fun p hp => hinv.fut p hp (t, 0) (List.mem_cons_self _ _), hfut⟩
    · intro c hc
      exact absurd hc (Option.noConfusion)
  by_cases h1 : k = 1
  · subst h1
    cases hr : r0 with
    | none =>
      rw [processEvent_culm_idle sn elev _ _ _ hr, Except.ok.injEq] at hstep
      subst hstep
      subst hr
      exact hinv.tail
    | some r =>
      subst hr
      rw [processEvent_culm sn elev _ _ _ r rfl, Except.ok.injEq] at hstep
      subst hstep
      refine ⟨hinv.tail.good, hinv.tail.sep, hinv.tail.fut, ?_, ?_⟩
      · intro r' hr'
        obtain rfl : r = r' := Option.some.inj hr'
        exact hinv.tail.riseRec r rfl
      · intro c hc
        obtain rfl : t = c := Option.some.inj hc
        refine ⟨⟨r, rfl, ?_⟩, hfut⟩
        exact (hinv.riseRec r rfl).2 (t, 1) (List.mem_cons_self _ _)
  by_cases h2 : k = 2
  · subst h2
    cases hr : r0 with
    | none =>
      rw [processEvent_set_skip sn elev _ _ _ (Or.inl hr),
        Except.ok.injEq] at hstep
      subst hstep
      exact hinv.tail
    | some r =>
      cases hc : c0 with
      | none =>
        rw [processEvent_set_skip sn elev _ _ _ (Or.inr hc),
          Except.ok.injEq] at hstep
        subst hstep
        exact hinv.tail
      | some c =>
        subst hr; subst hc
        cases hm : m0 with
        | none =>
          subst hm
          simp [processEvent, mkSatellitePass] at hstep
        | some m =>
          subst hm
          rw [processEvent_set_emit sn elev _ _ t r c m rfl rfl rfl,
            Except.ok.injEq] at hstep
          subst hstep
          have hrc : r < c := by
            obtain ⟨⟨r', hr', hlt⟩, _⟩ := hinv.culmRec c rfl
            cases hr'
            exact hlt
          have hct : c < t :=
            (hinv.culmRec c rfl).2 (t, 2) (List.mem_cons_self _ _)
          have hpsr : ∀ p ∈ ps, p.set_time < r := (hinv.riseRec r rfl).1
          refine ⟨?_, ?_, ?_, ?_, ?_⟩
          · intro p hp
            rcases List.mem_append.mp hp with hp | hp
            · exact hinv.good p hp
            · rcases List.mem_singleton.mp hp with rfl
              exact ⟨hrc, hct⟩
          · refine List.pairwise_append.mpr
              ⟨hinv.sep, List.pairwise_singleton _ _, ?_⟩
            intro a ha b hb
            rcases List.mem_singleton.mp hb with rfl
            exact hpsr a ha
          · intro p hp e he
            rcases List.mem_append.mp hp with hp | hp
            · exact hinv.fut p hp e (List.mem_cons_of_mem _ he)
            · rcases List.mem_singleton.mp hp with rfl
              exact hfut e he
          · rintro r' ⟨⟩
          · rintro c' ⟨⟩
  · rw [processEvent_other sn elev _ _ t k h0 h1 h2,
      Except.ok.injEq] at hstep
    subst hstep
    exact hinv.tail

/-- A successful run over a strictly ascending stream preserves the
ordering invariant down to the empty remainder. -/
theorem OrderInv.run (sn : String) (elev : ℚ → ℚ) :
    ∀ (evs : List SatEvent) (st st' : ExtractState),
      evs.Pairwise (fun a b : SatEvent => a.1 < b.1) →
      OrderInv evs st → runEvents sn elev evs st = .ok st' →
      OrderInv [] st'
  | [], st, st', _, hinv, hrun => by
    simp only [runEvents, Except.ok.injEq] at hrun
    subst hrun
    exact hinv
  | ev :: evs, st, st', hasc, hinv, hrun => by
    rw [List.pairwise_cons] at hasc
    simp only [runEvents] at hrun
    cases hp : processEvent sn elev st ev with
    | error e => rw [hp] at hrun; cases hrun
    | ok st1 =>
      rw [hp] at hrun
      exact OrderInv.run sn elev evs st1 st' hasc.2
        (OrderInv.step sn elev ev evs st st1 hasc.1 hinv hp) hrun

/-- C3: on every strictly time-ascending event stream, every emitted pass
satisfies `rise_time < culmination_time < set_time` strictly, consecutive
passes are non-overlapping (each pass's `set_time` precedes the next
pass's `rise_time`, pairwise), and the passes are ordered by `rise_time`. -/
theorem C3_emitted_passes_ordered (sn : String) (elev : ℚ → ℚ)
    (events : List SatEvent) (l : List SatellitePass)
    (hasc : events.Pairwise (fun a b : SatEvent => a.1 < b.1))
    (h : calculate_passes sn elev events = .ok l) :
    (∀ p ∈ l,
      p.rise_time < p.culmination_time ∧ p.culmination_time < p.set_time) ∧
    l.Pairwise (fun p q => p.set_time < q.rise_time) ∧
    l.Pairwise (fun p q => p.rise_time < q.rise_time) := by
  cases hrun : runEvents sn elev events ([], CurrentPass.empty) with
  | error e => rw [calculate_passes, hrun] at h; cases h
  | ok st =>
    rw [calculate_passes, hrun, Except.ok.injEq] at h
    subst h
    have hinv0 : OrderInv events ([], CurrentPass.empty) := by
      refine ⟨?_, ?_, ?_, ?_, ?_⟩ <;> simp [CurrentPass.empty]
    have hfin := OrderInv.run sn elev events _ st hasc hinv0 hrun
    refine ⟨hfin.good, hfin.sep, ?_⟩
    refine List.Pairwise.imp_of_mem ?_ hfin.sep
    intro p q hp hq hlt
    have hgp := hfin.good p hp
    exact lt_trans (lt_trans hgp.1 hgp.2) hlt

/-- C3 witness: a concrete two-pass ascending stream produces ordered,
non-overlapping passes. -/
theorem C3_emitted_passes_ordered_witness :
    (∀ p ∈ [(⟨0, 1, 2, 7, "ISS"⟩ : SatellitePass), ⟨3, 4, 5, 7, "ISS"⟩],
      p.rise_time < p.culmination_time ∧ p.culmination_time < p.set_time) ∧
    ([(⟨0, 1, 2, 7, "ISS"⟩ : SatellitePass), ⟨3, 4, 5, 7, "ISS"⟩]).Pairwise
      (fun p q => p.set_time < q.rise_time) ∧
    ([(⟨0, 1, 2, 7, "ISS"⟩ : SatellitePass), ⟨3, 4, 5, 7, "ISS"⟩]).Pairwise
      (fun p q => p.rise_time < q.rise_time) :=
  C3_emitted_passes_ordered "ISS" (fun _ => (7 : ℚ))
    [(0, 0), (1, 1), (2, 2), (3, 0), (4, 1), (5, 2)]
    [⟨0, 1, 2, 7, "ISS"⟩, ⟨3, 4, 5, 7, "ISS"⟩] (by decide) rfl

/-! ### Minimum-elevation bound (C4) -/

/-- Invariant for the elevation bound: every emitted pass and the elevation
recorded in the dict meet the threshold. -/
def ElevBound (min_elevation : ℚ) (st : ExtractState) : Prop :=
  (∀ p ∈ st.1, min_elevation ≤ p.max_elevation) ∧
  ∀ m, st.2.max_elevation = some m → min_elevation ≤ m

/-- A successful run over a stream whose culmination events all sample at
or above the threshold preserves the elevation bound. -/
theorem elevBound_run (sn : String) (elev : ℚ → ℚ) (min_elevation : ℚ) :
    ∀ (evs : List SatEvent) (st st' : ExtractState),
      (∀ ev ∈ evs, ev.2 = 1 → min_elevation ≤ elev ev.1) →
      ElevBound min_elevation st → runEvents sn elev evs st = .ok st' →
      ElevBound min_elevation st'
  | [], st, st', _, hb, hrun => by
    simp only [runEvents, Except.ok.injEq] at hrun
    subst hrun
    exact hb
  | ev :: evs, st, st', hs, hb, hrun => by
    simp only [runEvents] at hrun
    have hrest : ∀ ev ∈ evs, ev.2 = 1 → min_elevation ≤ elev ev.1 :=
      fun e he => hs e (List.mem_cons_of_mem _ he)
    cases hp : processEvent sn elev st ev with
    | error e => rw [hp] at hrun; cases hrun
    | ok st1 =>
      rw [hp] at hrun
      refine elevBound_run sn elev min_elevation evs st1 st' hrest ?_ hrun
      obtain ⟨ps, cp⟩ := st
      obtain ⟨t, k⟩ := ev
      obtain ⟨r0, c0, m0, s0, n0⟩ := cp
      by_cases h0 : k = 0
      · subst h0
        rw [processEvent_rise, Except.ok.injEq] at hp
        subst hp
        exact ⟨hb.1, by intro m hm; exact absurd hm (Option.noConfusion)⟩
      by_cases h1 : k = 1
      · subst h1
        cases hr : r0 with
        | none =>
          rw [processEvent_culm_idle sn elev _ _ _ hr,
            Except.ok.injEq] at hp
          subst hp
          exact hb
        | some r =>
          rw [processEvent_culm sn elev _ _ _ r hr, Except.ok.injEq] at hp
          subst hp
          refine ⟨hb.1, ?_⟩
          intro m hm
          obtain rfl : elev t = m := Option.some.inj hm
          exact hs (t, 1) (List.mem_cons_self _ _) rfl
      by_cases h2 : k = 2
      · subst h2
        cases hr : r0 with
        | none =>
          rw [processEvent_set_skip sn elev _ _ _ (Or.inl hr),
            Except.ok.injEq] at hp
          subst hp
          exact hb
        | some r =>
          cases hc : c0 with
          | none =>
            rw [processEvent_set_skip sn elev _ _ _ (Or.inr hc),
              Except.ok.injEq] at hp
            subst hp
            exact hb
          | some c =>
            subst hr; subst hc
            cases hm : m0 with
            | none =>
              subst hm
              simp [processEvent, mkSatellitePass] at hp
            | some m =>
              subst hm
              rw [processEvent_set_emit sn elev _ _ t r c m rfl rfl rfl,
                Except.ok.injEq] at hp
              subst hp
              refine ⟨?_, by rintro m' ⟨⟩⟩
              intro p hpmem
              rcases List.mem_append.mp hpmem with h | h
              · exact hb.1 p h
              · rcases List.mem_singleton.mp h with rfl
                exact hb.2 m rfl
      · rw [processEvent_other sn elev _ _ t k h0 h1 h2,
          Except.ok.injEq] at hp
        subst hp
        exact hb

/-- C4: whenever the sampler honours the threshold — every culmination
event in the stream samples an elevation at or above `min_elevation` —
every emitted pass has `max_elevation` at or above `min_elevation`. -/
theorem C4_max_elevation_above_threshold (sn : String) (elev : ℚ → ℚ)
    (min_elevation : ℚ) (events : List SatEvent) (l : List SatellitePass)
    (hsampler : ∀ ev ∈ events, ev.2 = 1 → min_elevation ≤ elev ev.1)
    (h : calculate_passes sn elev events = .ok l) :
    ∀ p ∈ l, min_elevation ≤ p.max_elevation := by
  cases hrun : runEvents sn elev events ([], CurrentPass.empty) with
  | error e => rw [calculate_passes, hrun] at h; cases h
  | ok st =>
    rw [calculate_passes, hrun, Except.ok.injEq] at h
    subst h
    have hb0 : ElevBound min_elevation ([], CurrentPass.empty) := by
      constructor <;> simp [CurrentPass.empty]
    exact (elevBound_run sn elev min_elevation events _ st
      hsampler hb0 hrun).1

/-- C4 witness: with threshold 10 and sampler elevation 45.2 at the
culmination, the emitted pass meets the threshold. -/
theorem C4_max_elevation_above_threshold_witness :
    (10 : ℚ) ≤ (⟨0, 1, 2, 45, "ISS"⟩ : SatellitePass).max_elevation :=
  C4_max_elevation_above_threshold "ISS" (fun _ => (45 : ℚ)) 10
    [(0, 0), (1, 1), (2, 2)] [⟨0, 1, 2, 45, "ISS"⟩] (by decide) rfl
    ⟨0, 1, 2, 45, "ISS"⟩ (List.mem_singleton.mpr rfl)

end PassTracker
